import Mathlib

/-!
Verification of the HX365 RAG engine (`hx365_rag.py`).

This file gives a shallow embedding of the retrieval-engine module:
the smart chunker (`SmartChunker.chunk_text`, `chunk_code`), the fallback
embedding encoder (`BGEEncoder._fallback_encode`), the vector index
(`USearchIndex.add_chunk`, `search`), the context-window manager
(`ContextManager.count_tokens`, `truncate_context`) and the orchestration
layer (`RAGEngine.ingest_document`, `retrieve`, `get_document_summary`).

External library calls (NLTK `sent_tokenize`, `hashlib.md5`, the usearch
ANN search primitive, the transformer model) are passed in as explicit
function parameters; everything written in the repository itself is
translated directly.

Python strings are modelled as Lean `String`, Python floats as `ℚ`
(the arithmetic involved - hex-digit division by 15, `1/(1+d)`,
`code_lines / max(len(lines),1) > 0.3` - is exact at the precision these
comparisons need), Python dicts as insertion-ordered association lists.
-/

/-! ## Python string primitives

`str.strip()`, `str.split(sep)`, `str.lower()`, slicing and substring
membership, modelled over the character list so that everything reduces
in the kernel. -/

/-- Python `str.strip()`: drop leading and trailing whitespace. -/
def pyStrip (s : String) : String :=
  String.mk (((s.data.dropWhile Char.isWhitespace).reverse.dropWhile Char.isWhitespace).reverse)

/-- Split a character list at every occurrence of `sep` (Python `str.split(sep)`:
an empty input gives one empty field). -/
def splitCharList (sep : Char) : List Char → List (List Char)
  | [] => [[]]
  | c :: rest =>
      let groups := splitCharList sep rest
      if c = sep then [] :: groups
      else
        match groups with
        | g :: gs => (c :: g) :: gs
        | [] => [[c]]

/-- Python `text.split(sep)` on strings. -/
def pySplit (sep : Char) (s : String) : List String :=
  (splitCharList sep s.data).map String.mk

/-- Python `str.lower()` (ASCII case fold, which is all the source compares). -/
def pyLower (s : String) : String :=
  String.mk (s.data.map Char.toLower)

/-- Python slicing `s[:n]`. -/
def pyTake (n : Nat) (s : String) : String :=
  String.mk (s.data.take n)

/-- Whether `pat` occurs as a contiguous sublist of `l`. -/
def subOccurs (pat : List Char) : List Char → Bool
  | [] => pat.isEmpty
  | c :: rest => pat.isPrefixOf (c :: rest) || subOccurs pat rest

/-- Python `pat in s` substring membership. -/
def strContains (s pat : String) : Bool :=
  subOccurs pat.data s.data

/-- Python `" ".join(parts)`. -/
def joinSpace (parts : List String) : String :=
  String.intercalate " " parts

/-- Python `"\n".join(parts)`. -/
def joinNl (parts : List String) : String :=
  String.intercalate "\n" parts

/-! ## Module-level configuration (the environment-variable defaults at the
top of `hx365_rag.py`). -/

def EMBEDDING_DIM : Nat := 384
def CHUNK_SIZE : Nat := 512
def CHUNK_OVERLAP : Nat := 64
def MAX_CONTEXT_TOKENS : Nat := 4096

/-! ## Data model -/

/-- The `metadata` dict attached to a `DocumentChunk`: `chunk_text` stores a
sentence count, `chunk_code` stores the line range and detected language. -/
inductive ChunkMeta where
  | text (sentence_count : Nat)
  | code (start_line end_line : Nat) (language : String)
deriving DecidableEq

/-- The `DocumentChunk` dataclass (the `embedding` member is populated later
and the `created_at` wall-clock timestamp is external state, so neither is
carried here). -/
structure DocumentChunk where
  id : String
  content : String
  document_id : String
  meta : ChunkMeta
deriving DecidableEq

/-- The `RetrievedResult` dataclass. -/
structure RetrievedResult where
  content : String
  score : ℚ
  document_id : String
  chunk_id : String
  meta : ChunkMeta
deriving DecidableEq

/-- A conversation turn: the `{"role": ..., "content": ...}` dicts consumed by
`ContextManager.truncate_context`. -/
structure Message where
  role : String
  content : String
deriving DecidableEq

/-! ## SmartChunker.chunk_text

`chunk_text` first calls NLTK `sent_tokenize`; that external call is
factored out, so the embedded function consumes the resulting sentence
list. The loop state is `(current_chunk, current_sentences, chunks)`. -/

/-- Python `current_sentences[-2:] if len(current_sentences) >= 2 else current_sentences`. -/
def overlapTail (l : List String) : List String :=
  if l.length ≥ 2 then l.drop (l.length - 2) else l

/-- The chunk-flush step shared by the loop body and the final flush of
`SmartChunker.chunk_text`: append the stripped buffer as a new chunk when the
sentence buffer is non-empty. -/
def emitChunk (document_id current_chunk : String) (current_sentences : List String)
    (chunks : List DocumentChunk) : List DocumentChunk :=
  if current_sentences ≠ [] then
    chunks ++ [⟨document_id ++ "_chunk_" ++ toString chunks.length,
                pyStrip current_chunk, document_id,
                ChunkMeta.text current_sentences.length⟩]
  else chunks

/-- The candidate buffer `current_chunk + " " + sentence if current_chunk else
sentence` tested against the chunk size. -/
def testChunk (current_chunk sentence : String) : String :=
  if current_chunk ≠ "" then current_chunk ++ " " ++ sentence else sentence

/-- The sentence-accumulation loop of `SmartChunker.chunk_text`, including the
final flush of a non-empty buffer. -/
def chunkTextLoop (chunk_size overlap : Nat) (document_id : String) :
    List String → String → List String → List DocumentChunk → List DocumentChunk
  | [], current_chunk, current_sentences, chunks =>
      emitChunk document_id current_chunk current_sentences chunks
  | sentence :: rest, current_chunk, current_sentences, chunks =>
      if (testChunk current_chunk sentence).length ≤ chunk_size then
        chunkTextLoop chunk_size overlap document_id rest
          (testChunk current_chunk sentence) (current_sentences ++ [sentence]) chunks
      else
        if overlap > 0 then
          chunkTextLoop chunk_size overlap document_id rest
            (joinSpace (overlapTail current_sentences) ++ " " ++ sentence)
            (overlapTail current_sentences ++ [sentence])
            (emitChunk document_id current_chunk current_sentences chunks)
        else
          chunkTextLoop chunk_size overlap document_id rest sentence [sentence]
            (emitChunk document_id current_chunk current_sentences chunks)

/-- `SmartChunker.chunk_text`, applied to the sentence list produced by the
external sentence tokenizer. -/
def chunk_text (chunk_size overlap : Nat) (sentences : List String)
    (document_id : String) : List DocumentChunk :=
  chunkTextLoop chunk_size overlap document_id sentences "" [] []

/-! ## SmartChunker.chunk_code and the code/prose heuristics -/

/-- A Python `\w` word character (ASCII letters, digits, underscore). -/
def isWordChar (c : Char) : Bool :=
  c.isAlphanum || c = '_'

/-- Match of `kw` followed by `\s+\w+` at the head of `cs` (the tail of the
first regex pattern after the keyword alternation). -/
def kwThenWsWord (kw : String) (cs : List Char) : Bool :=
  kw.data.isPrefixOf cs &&
    (match cs.drop kw.length with
     | c :: tail =>
         c.isWhitespace &&
           (match (c :: tail).dropWhile Char.isWhitespace with
            | d :: _ => isWordChar d
            | [] => false)
     | [] => false)

/-- Match of `kw` followed by `\s*\(` at the head of `cs` (the tail of the
second regex pattern). -/
def kwThenWsParen (kw : String) (cs : List Char) : Bool :=
  kw.data.isPrefixOf cs &&
    (match (cs.drop kw.length).dropWhile Char.isWhitespace with
     | d :: _ => d = '('
     | [] => false)

/-- The `is_new_unit` test of `chunk_code`: whether a line matches one of the
three `func_patterns` regexes
(`^\s*(def|class|function|public|private|protected|fn)\s+\w+`,
`^\s*(if|for|while|switch)\s*\(`, `^\s*#\s+`). -/
def isNewUnit (line : String) : Bool :=
  let cs := line.data.dropWhile Char.isWhitespace
  (["def", "class", "function", "public", "private", "protected", "fn"].any
      (fun kw => kwThenWsWord kw cs)) ||
  (["if", "for", "while", "switch"].any (fun kw => kwThenWsParen kw cs)) ||
  (match cs with
   | '#' :: c :: _ => c.isWhitespace
   | _ => false)

/-- `SmartChunker._detect_language`. -/
def detect_language (code : String) : String :=
  let first_few_lines := pyLower (joinNl ((pySplit '\n' code).take 10))
  if strContains first_few_lines "import torch" || strContains first_few_lines "import tensorflow" then
    "python_ml"
  else if strContains first_few_lines "def " && strContains first_few_lines "import " then
    "python"
  else if strContains first_few_lines "function " || strContains first_few_lines "const " then
    "javascript"
  else if strContains first_few_lines "public class" || strContains first_few_lines "private void" then
    "java"
  else if strContains first_few_lines "#include" then
    "cpp"
  else if strContains first_few_lines "func " then
    "go"
  else if strContains first_few_lines "fn " && strContains first_few_lines "->" then
    "rust"
  else "unknown"

/-- The line-accumulation loop of `SmartChunker.chunk_code`. `lines` is the
full line list (needed for the overlap lookback window), the first list
argument is the unprocessed suffix and `i` its starting index. -/
def chunkCodeLoop (overlap : Nat) (document_id lang : String) (lines : List String) :
    List String → Nat → List String → Nat → List DocumentChunk → List DocumentChunk
  | [], _, current_chunk, chunk_start_line, chunks =>
      if current_chunk ≠ [] then
        let chunk_content := joinNl current_chunk
        if (pyStrip chunk_content).length > 0 then
          chunks ++ [⟨document_id ++ "_code_chunk_" ++ toString chunks.length,
                      chunk_content, document_id,
                      ChunkMeta.code chunk_start_line (lines.length - 1) lang⟩]
        else chunks
      else chunks
  | line :: rest, i, current_chunk, chunk_start_line, chunks =>
      if isNewUnit line ∧ current_chunk.length > 0 then
        let chunk_content := joinNl current_chunk
        let chunks' :=
          if (pyStrip chunk_content).length > 0 then
            chunks ++ [⟨document_id ++ "_code_chunk_" ++ toString chunks.length,
                        chunk_content, document_id,
                        ChunkMeta.code chunk_start_line (i - 1) lang⟩]
          else chunks
        if overlap > 0 then
          let overlap_start := i - overlap
          chunkCodeLoop overlap document_id lang lines rest (i + 1)
            ((lines.drop overlap_start).take (i + 1 - overlap_start)) overlap_start chunks'
        else
          chunkCodeLoop overlap document_id lang lines rest (i + 1) [line] i chunks'
      else
        chunkCodeLoop overlap document_id lang lines rest (i + 1)
          (current_chunk ++ [line]) chunk_start_line chunks

/-- `SmartChunker.chunk_code` (Python `max(0, i - overlap)` is Nat subtraction). -/
def chunk_code (overlap : Nat) (document_id : String) (code : String) : List DocumentChunk :=
  let lines := pySplit '\n' code
  chunkCodeLoop overlap document_id (detect_language code) lines lines 0 [] 0 []

/-- `RAGEngine._is_code`. The Python float comparison
`code_lines / max(len(lines), 1) > 0.3` is stated as the exact rational
comparison `10 * code_lines > 3 * max(len(lines), 1)`; with at most ten
lines both sides of the float comparison are far from the rounding error
of `0.3`, so the two agree. -/
def is_code (text : String) : Bool :=
  let code_indicators : List String :=
    ["def ", "class ", "import ", "from ", "function ",
     "\x7b", "\x7d", "var ", "let ", "const ", "public ", "private ",
     "#include", "int main", "void ", "struct ", "enum "]
  let lines := (pySplit '\n' text).take 10
  let code_lines :=
    (lines.filter (fun line => code_indicators.any (fun ind => strContains line ind))).length
  10 * code_lines > 3 * max lines.length 1

/-! ## BGEEncoder._fallback_encode

The MD5 digest itself is `hashlib` library code, so the fallback encoder is
parameterized by the digest function `md5hex : String → String` (the
`hexdigest()` of the text, a 32-character lowercase hex string for the real
MD5). The primary transformer path is external model code and is likewise
abstracted wherever the engine needs an encoder. -/

/-- Python `int(c, 16)` on a single hex digit (the source only ever applies it
to `hexdigest()` output; a non-hex character, on which Python would raise,
is mapped to 0). -/
def hexVal : Char → Nat
  | '0' => 0 | '1' => 1 | '2' => 2 | '3' => 3 | '4' => 4
  | '5' => 5 | '6' => 6 | '7' => 7 | '8' => 8 | '9' => 9
  | 'a' => 10 | 'b' => 11 | 'c' => 12 | 'd' => 13 | 'e' => 14 | 'f' => 15
  | 'A' => 10 | 'B' => 11 | 'C' => 12 | 'D' => 13 | 'E' => 14 | 'F' => 15
  | _ => 0

/-- The per-text body of `BGEEncoder._fallback_encode`: start from a zero
vector of length `EMBEDDING_DIM` and assign
`embedding[i] = int(text_hash[i % len(text_hash)], 16) / 15.0` for every
`i < min(len(text_hash), EMBEDDING_DIM)`. Each index below the bound is
assigned exactly once, so the write loop is rendered as a positional map. -/
def fallbackEncodeOne (md5hex : String → String) (text : String) : List ℚ :=
  let text_hash := (md5hex text).data
  (List.range EMBEDDING_DIM).map (fun i =>
    if i < min text_hash.length EMBEDDING_DIM then
      (hexVal (text_hash.getD (i % text_hash.length) '0') : ℚ) / 15
    else 0)

/-- `BGEEncoder._fallback_encode`: one vector per input text, in order. -/
def fallback_encode (md5hex : String → String) (texts : List String) : List (List ℚ) :=
  texts.map (fallbackEncodeOne md5hex)

/-! ## USearchIndex

The usearch `Index` object holds the keyed vectors; its approximate
nearest-neighbor query is external library code, abstracted as
`ann : entries → query → k → List (key, distance)`. The repository-side
state is the keyed vector list plus the `document_chunks` dict. -/

/-- Python `int(hashlib.md5(chunk_id.encode()).hexdigest()[:16], 16)`,
parameterized by the digest. -/
def hexStringToNat (cs : List Char) : Nat :=
  cs.foldl (fun acc c => 16 * acc + hexVal c) 0

/-- The derived integer key used by `add_chunk` and `search`. -/
def chunkKey (md5hex : String → String) (chunk_id : String) : Nat :=
  hexStringToNat ((md5hex chunk_id).data.take 16)

/-- Insertion-ordered dict assignment `d[k] = v` (update in place, append new
keys), the semantics of a Python dict. -/
def dictInsert (l : List (String × α)) (k : String) (v : α) : List (String × α) :=
  match l with
  | [] => [(k, v)]
  | (k', v') :: rest => if k' = k then (k, v) :: rest else (k', v') :: dictInsert rest k v

/-- Python dict lookup `d[k]` / `d.get(k)`. -/
def dictLookup (l : List (String × α)) (k : String) : Option α :=
  match l with
  | [] => none
  | (k', v) :: rest => if k' = k then some v else dictLookup rest k

/-- The repository-side state of `USearchIndex`: the keyed vectors held by the
usearch structure and the `document_chunks` metadata dict. -/
structure USearchIndexState where
  entries : List (Nat × List ℚ)
  document_chunks : List (String × DocumentChunk)
deriving DecidableEq

/-- `USearchIndex.add_chunk` minus the `save()` call (persistence is modelled
at the engine level, where the saved snapshot lives). -/
def add_chunk (md5hex : String → String) (idx : USearchIndexState)
    (chunk : DocumentChunk) (embedding : List ℚ) : USearchIndexState :=
  { entries := idx.entries ++ [(chunkKey md5hex chunk.id, embedding)],
    document_chunks := dictInsert idx.document_chunks chunk.id chunk }

/-- The reverse scan in `USearchIndex.search`: the first chunk id in
`document_chunks` whose derived key equals `key`. -/
def findChunkIdForKey (md5hex : String → String)
    (dcs : List (String × DocumentChunk)) (key : Nat) : Option String :=
  match dcs with
  | [] => none
  | (cid, _) :: rest =>
      if chunkKey md5hex cid = key then some cid else findChunkIdForKey md5hex rest key

/-- `USearchIndex.search`: empty-index short circuit, then map each
`(key, distance)` hit back to a chunk id and the similarity `1 / (1 + d)`.
Python's truthiness test `if chunk_id:` also rejects an empty-string id. -/
def usearch_search (md5hex : String → String)
    (ann : List (Nat × List ℚ) → List ℚ → Nat → List (Nat × ℚ))
    (idx : USearchIndexState) (query_embedding : List ℚ) (k : Nat) : List (String × ℚ) :=
  if idx.entries.length = 0 then []
  else
    (ann idx.entries query_embedding k).filterMap (fun kd =>
      match findChunkIdForKey md5hex idx.document_chunks kd.1 with
      | some chunk_id => if chunk_id ≠ "" then some (chunk_id, 1 / (1 + kd.2)) else none
      | none => none)

/-! ## ContextManager -/

structure ContextManager where
  max_tokens : Nat
deriving DecidableEq

/-- `ContextManager.count_tokens`. The tokenizer member is `None` (the
constructor only loads one when a local `"BAAI/bge-small-en-v1.5"` path
exists), so the live branch is the rough approximation
`len(text) // 4`. -/
def count_tokens (text : String) : Nat :=
  text.length / 4

/-- The `total_content` accumulation at the top of `truncate_context`:
every message content followed by a newline, then every retrieved chunk
content followed by a newline. -/
def totalContent (messages : List Message) (retrieved : List String) : String :=
  retrieved.foldl (fun acc c => acc ++ c ++ "\n")
    (messages.foldl (fun acc m => acc ++ m.content ++ "\n") "")

/-- The first system-role message, as found by the `for msg in messages`
scan with `break`. -/
def findSystem : List Message → Option Message
  | [] => none
  | m :: rest => if m.role = "system" then some m else findSystem rest

/-- Python `list.insert(1, m)`: on an empty list the index clamps and the
element is appended; otherwise it lands right after the head. -/
def insertAt1 (l : List Message) (m : Message) : List Message :=
  match l with
  | [] => [m]
  | x :: xs => x :: m :: xs

/-- The recent-message accumulation loop of `truncate_context`: walk the
reversed remaining list, `insert(1, msg)` while the running total stays
within budget, stop at the first message that does not fit. -/
def addRecent (max_tokens : Nat) :
    List Message → List Message → Nat → List Message × Nat
  | [], acc, cur => (acc, cur)
  | m :: rest, acc, cur =>
      if cur + count_tokens m.content ≤ max_tokens then
        addRecent max_tokens rest (insertAt1 acc m) (cur + count_tokens m.content)
      else (acc, cur)

/-- `ContextManager.truncate_context`. Message comparison `msg != system_msg`
is Python dict value equality, i.e. structural equality of `Message`. -/
def truncate_context (cm : ContextManager) (messages : List Message)
    (retrieved : List String) : List Message :=
  if messages = [] then messages
  else
    if count_tokens (totalContent messages retrieved) ≤ cm.max_tokens then messages
    else
      match findSystem messages with
      | some system_msg =>
          system_msg ::
            (((addRecent cm.max_tokens
                  (messages.filter (fun m => decide (m ≠ system_msg))).reverse
                  [system_msg] (count_tokens system_msg.content)).1.filter
                (fun m => decide (m ≠ system_msg))).reverse)
      | none =>
          ((addRecent cm.max_tokens messages.reverse [] 0).1).reverse

/-! ## RAGEngine -/

/-- The engine-side mutable state: the in-memory full-document dict, the live
vector index, and the persisted snapshot (the on-disk index blob together
with its `.chunks.json` sidecar, written by every `save()`). -/
structure EngineState where
  documents : List (String × String)
  index : USearchIndexState
  persisted : USearchIndexState
deriving DecidableEq

/-- A fresh engine with no pre-existing index file. -/
def freshEngine : EngineState :=
  { documents := [], index := ⟨[], []⟩, persisted := ⟨[], []⟩ }

/-- `RAGEngine.ingest_document`. `md5hex` is the hashlib digest, `sentTok` the
external NLTK sentence tokenizer, `enc` the encoder (`BGEEncoder.encode`,
whose primary path is external model code; its fallback path is
`fallback_encode md5hex`). Each `add_chunk` call persists synchronously, so
after the loop the saved snapshot equals the final index whenever at least
one chunk-embedding pair was added. -/
def ingest_document (md5hex : String → String) (sentTok : String → List String)
    (enc : List String → List (List ℚ)) (st : EngineState)
    (content : String) (doc_id? : Option String) : String × EngineState :=
  let doc_id :=
    match doc_id? with
    | some d => d
    | none => "doc_" ++ pyTake 12 (md5hex content)
  let documents' := dictInsert st.documents doc_id content
  let chunks :=
    if is_code content then chunk_code CHUNK_OVERLAP doc_id content
    else chunk_text CHUNK_SIZE CHUNK_OVERLAP (sentTok content) doc_id
  let embeddings := enc (chunks.map (fun c => c.content))
  let pairs := chunks.zip embeddings
  let index' := pairs.foldl (fun acc ce => add_chunk md5hex acc ce.1 ce.2) st.index
  let persisted' := if pairs.length = 0 then st.persisted else index'
  (doc_id, { documents := documents', index := index', persisted := persisted' })

/-- `RAGEngine.retrieve`. Python takes `query_embeddings[0]`, which raises if
the encoder returns no vector, hence the `Option` result. The final
`sort(key=score, reverse=True)` is a stable descending sort. -/
def retrieve (md5hex : String → String)
    (ann : List (Nat × List ℚ) → List ℚ → Nat → List (Nat × ℚ))
    (enc : List String → List (List ℚ)) (st : EngineState)
    (query : String) (k : Nat) : Option (List RetrievedResult) :=
  match enc [query] with
  | [] => none
  | query_embedding :: _ =>
      let search_results := usearch_search md5hex ann st.index query_embedding k
      let retrieved_results := search_results.filterMap (fun cs =>
        match dictLookup st.index.document_chunks cs.1 with
        | some chunk => some ⟨chunk.content, cs.2, chunk.document_id, chunk.id, chunk.meta⟩
        | none => none)
      some (retrieved_results.mergeSort (fun a b => decide (b.score ≤ a.score)))

/-- The summary record returned by `get_document_summary` (the
`ingested_at` timestamp is external wall-clock state and is not carried). -/
structure DocSummary where
  id : String
  length : Nat
  chunk_count : Nat
  first_chunk_preview : String
deriving DecidableEq

/-- `RAGEngine.get_document_summary`. -/
def get_document_summary (st : EngineState) (doc_id : String) : Option DocSummary :=
  match dictLookup st.documents doc_id with
  | none => none
  | some content =>
      let chunks := (st.index.document_chunks.map (fun p => p.2)).filter
        (fun c => c.document_id = doc_id)
      some { id := doc_id,
             length := content.length,
             chunk_count := chunks.length,
             first_chunk_preview :=
               match chunks with
               | [] => ""
               | c :: _ => pyTake 100 c.content ++ "..." }

/-- The total of the per-turn token estimates of a message list - the measure
`truncate_context` accumulates in `current_tokens` while it keeps recent
turns. -/
def sumTokens (messages : List Message) : Nat :=
  (messages.map (fun m => count_tokens m.content)).sum

/-! Concrete stand-ins for the external collaborators, used to instantiate
counterexamples and witnesses: fixed digest outputs (consistent with an MD5
hexdigest shape), fixed sentence-tokenizer outputs on the inputs they are
used at, and trivial encoders. -/

/-- A digest function that is constantly thirty-two `'0'` digits. -/
def zeroDigest : String → String := fun _ => String.mk (List.replicate 32 '0')

/-- A digest function that is constantly thirty-two `'f'` digits. -/
def allFDigest : String → String := fun _ => String.mk (List.replicate 32 'f')

/-- A sentence tokenizer producing no sentences (what NLTK yields on the
empty string). -/
def emptyTok : String → List String := fun _ => []

/-- A sentence tokenizer returning the single sentence
`"Python is a language."` (what NLTK yields on that one-sentence input). -/
def doc1Tok : String → List String := fun _ => ["Python is a language."]

/-- An encoder producing no vectors. -/
def emptyEnc : List String → List (List ℚ) := fun _ => []

/-- An encoder producing one constant one-dimensional vector per input. -/
def oneVecEnc : List String → List (List ℚ) := fun ts => ts.map (fun _ => [0])

/-- An empty ANN search primitive, the hit list an empty usearch index
produces. -/
def emptyAnn : List (Nat × List ℚ) → List ℚ → Nat → List (Nat × ℚ) := fun _ _ _ => []

/-! ## Helper lemmas -/

theorem pyStrip_length_le (s : String) : (pyStrip s).length ≤ s.length := by
  show (((s.data.dropWhile Char.isWhitespace).reverse.dropWhile
      Char.isWhitespace).reverse).length ≤ s.data.length
  rw [List.length_reverse]
  calc ((s.data.dropWhile Char.isWhitespace).reverse.dropWhile Char.isWhitespace).length
      ≤ (s.data.dropWhile Char.isWhitespace).reverse.length :=
        (List.dropWhile_sublist _).length_le
    _ = (s.data.dropWhile Char.isWhitespace).length := List.length_reverse _
    _ ≤ s.data.length := (List.dropWhile_sublist _).length_le

theorem overlapTail_length_le (l : List String) : (overlapTail l).length ≤ 2 := by
  unfold overlapTail
  split
  · rw [List.length_drop]; omega
  · omega

theorem div_add_div_le_add_div (a b n : Nat) : a / n + b / n ≤ (a + b) / n := by
  rcases Nat.eq_zero_or_pos n with h | h
  · subst h; simp
  · rw [Nat.le_div_iff_mul_le h, Nat.add_mul]
    exact Nat.add_le_add (Nat.div_mul_le_self a n) (Nat.div_mul_le_self b n)

theorem sum_div_le_div_sum (l : List Nat) (n : Nat) :
    (l.map (fun a => a / n)).sum ≤ l.sum / n := by
  induction l with
  | nil => simp
  | cons a t ih =>
      simp only [List.map_cons, List.sum_cons]
      calc a / n + (t.map (fun a => a / n)).sum ≤ a / n + t.sum / n :=
            Nat.add_le_add_left ih _
        _ ≤ (a + t.sum) / n := div_add_div_le_add_div a t.sum n

theorem foldl_msgs_length (l : List Message) (init : String) :
    (l.foldl (fun acc m => acc ++ m.content ++ "\n") init).length
      = init.length + (l.map (fun m => m.content.length + 1)).sum := by
  induction l generalizing init with
  | nil => simp
  | cons m t ih =>
      simp only [List.foldl_cons, List.map_cons, List.sum_cons, ih,
        String.length_append]
      have : ("\n" : String).length = 1 := rfl
      omega

theorem foldl_strs_length (l : List String) (init : String) :
    (l.foldl (fun acc c => acc ++ c ++ "\n") init).length
      = init.length + (l.map (fun c => c.length + 1)).sum := by
  induction l generalizing init with
  | nil => simp
  | cons c t ih =>
      simp only [List.foldl_cons, List.map_cons, List.sum_cons, ih,
        String.length_append]
      have : ("\n" : String).length = 1 := rfl
      omega

theorem totalContent_length (messages : List Message) (retrieved : List String) :
    (totalContent messages retrieved).length
      = (messages.map (fun m => m.content.length + 1)).sum
        + (retrieved.map (fun c => c.length + 1)).sum := by
  unfold totalContent
  rw [foldl_strs_length, foldl_msgs_length]
  simp

theorem sumTokens_le_count_totalContent (messages : List Message) (retrieved : List String) :
    sumTokens messages ≤ count_tokens (totalContent messages retrieved) := by
  unfold sumTokens count_tokens
  rw [totalContent_length]
  calc (messages.map (fun m => m.content.length / 4)).sum
      = ((messages.map (fun m => m.content.length)).map (fun a => a / 4)).sum := by
        rw [List.map_map]; rfl
    _ ≤ (messages.map (fun m => m.content.length)).sum / 4 :=
        sum_div_le_div_sum _ 4
    _ ≤ ((messages.map (fun m => m.content.length + 1)).sum
          + (retrieved.map (fun c => c.length + 1)).sum) / 4 := by
        apply Nat.div_le_div_right
        have h : (messages.map (fun m => m.content.length)).sum
            ≤ (messages.map (fun m => m.content.length + 1)).sum := by
          induction messages with
          | nil => simp
          | cons m t ih => simp only [List.map_cons, List.sum_cons]; omega
        omega

theorem sumTokens_insertAt1 (acc : List Message) (m : Message) :
    sumTokens (insertAt1 acc m) = count_tokens m.content + sumTokens acc := by
  cases acc
  · simp [insertAt1, sumTokens]
  · simp [insertAt1, sumTokens]
    omega

theorem sumTokens_reverse (l : List Message) : sumTokens l.reverse = sumTokens l := by
  unfold sumTokens
  rw [List.map_reverse, List.sum_reverse]

theorem addRecent_sum_le (max_tokens : Nat) (msgs : List Message) :
    ∀ acc cur, sumTokens acc = cur → cur ≤ max_tokens →
      sumTokens (addRecent max_tokens msgs acc cur).1 ≤ max_tokens := by
  induction msgs with
  | nil => intro acc cur hs hle; simpa [addRecent, hs] using hle
  | cons m rest ih =>
      intro acc cur hs hle
      unfold addRecent
      split
      · next hfit =>
          exact ih _ _ (by rw [sumTokens_insertAt1, hs]; omega) hfit
      · simpa [hs] using hle

theorem addRecent_shape (max_tokens : Nat) (sys : Message) (msgs : List Message) :
    ∀ rest₀ cur, (∀ m ∈ msgs, m ≠ sys) → (∀ m ∈ rest₀, m ≠ sys) →
      ∃ rest', (addRecent max_tokens msgs (sys :: rest₀) cur).1 = sys :: rest'
        ∧ ∀ m ∈ rest', m ≠ sys := by
  induction msgs with
  | nil => intro rest₀ cur _ hr; exact ⟨rest₀, rfl, hr⟩
  | cons m rest ih =>
      intro rest₀ cur hm hr
      unfold addRecent
      split
      · have hm' : ∀ x ∈ rest, x ≠ sys := fun x hx => hm x (List.mem_cons_of_mem _ hx)
        have hmr : ∀ x ∈ m :: rest₀, x ≠ sys := by
          intro x hx
          rcases List.mem_cons.mp hx with h | h
          · subst h; exact hm x (List.mem_cons_self _ _)
          · exact hr x h
        exact ih (m :: rest₀) _ hm' hmr
      · exact ⟨rest₀, rfl, hr⟩

theorem truncate_context_noop (cm : ContextManager) (messages : List Message)
    (retrieved : List String)
    (h : count_tokens (totalContent messages retrieved) ≤ cm.max_tokens) :
    truncate_context cm messages retrieved = messages := by
  unfold truncate_context
  rcases em (messages = []) with he | he
  · simp [he]
  · rw [if_neg he, if_pos h]

theorem sumTokens_cons (m : Message) (l : List Message) :
    sumTokens (m :: l) = count_tokens m.content + sumTokens l := by
  simp [sumTokens]

/-! ## Claim theorems -/

/-- C1. The spec claims `truncate_context` returns the preserved turns in
chronological (oldest-to-newest) order with the system turn first. The code
comment at the end of `truncate_context` ("Reverse to restore chronological
order") promises the same, but the `insert(1, msg)` loop has already placed
the kept turns in chronological order, so the final reversal returns them
newest-first. At a history of one system turn and three one-to-two-token user
turns with budget 5, the kept turns come back as system, newest, second
newest - not in chronological order. -/
theorem truncate_context_reverses_recent_turns :
    truncate_context ⟨5⟩
        [⟨"system", "ssss"⟩, ⟨"user", "aaaaaaaa"⟩,
         ⟨"user", "bbbbbbbb"⟩, ⟨"user", "cccccccc"⟩] []
      = [⟨"system", "ssss"⟩, ⟨"user", "cccccccc"⟩, ⟨"user", "bbbbbbbb"⟩] ∧
    ([⟨"system", "ssss"⟩, ⟨"user", "cccccccc"⟩, ⟨"user", "bbbbbbbb"⟩] : List Message)
      ≠ [⟨"system", "ssss"⟩, ⟨"user", "bbbbbbbb"⟩, ⟨"user", "cccccccc"⟩] := by
  decide

/-- C2 counterexample. The claim bounds the total estimated token count of the
output of `truncate_context`, with retrieved segments counted toward the same
budget, by the configured maximum. With budget 2, one two-token user turn and
a retrieved chunk of three tokens (and no system turn, so the claimed
exception does not apply), the turn is kept and the measured total of the
output is 5 > 2. -/
theorem truncate_context_budget_violation :
    findSystem [⟨"user", "aaaaaaaa"⟩] = none ∧
    ¬ count_tokens (totalContent
        (truncate_context ⟨2⟩ [⟨"user", "aaaaaaaa"⟩] ["xxxxxxxxxxxx"])
        ["xxxxxxxxxxxx"]) ≤ 2 := by
  decide

/-- C2 amended. The sum of the per-turn token estimates of the output of
`truncate_context` never exceeds the configured maximum, provided the system
turn the code selects (if any) does not alone exceed it; retrieved segment
content and the per-turn newline separators of the code's own total are not
part of this output bound. -/
theorem truncate_context_per_turn_budget (cm : ContextManager)
    (messages : List Message) (retrieved : List String)
    (hsys : match findSystem messages with
            | none => True
            | some s => count_tokens s.content ≤ cm.max_tokens) :
    sumTokens (truncate_context cm messages retrieved) ≤ cm.max_tokens := by
  unfold truncate_context
  rcases em (messages = []) with he | he
  · simp [he, sumTokens]
  · rw [if_neg he]
    rcases em (count_tokens (totalContent messages retrieved) ≤ cm.max_tokens) with hfit | hfit
    · rw [if_pos hfit]
      exact le_trans (sumTokens_le_count_totalContent messages retrieved) hfit
    · rw [if_neg hfit]
      rcases hfs : findSystem messages with _ | sys
      · rw [sumTokens_reverse]
        exact addRecent_sum_le _ _ [] 0 (by simp [sumTokens]) (Nat.zero_le _)
      · rw [hfs] at hsys
        show sumTokens (sys ::
            ((addRecent cm.max_tokens
                (messages.filter (fun m => decide (m ≠ sys))).reverse
                [sys] (count_tokens sys.content)).1.filter
              (fun m => decide (m ≠ sys))).reverse) ≤ cm.max_tokens
        have hrem : ∀ m ∈ (messages.filter (fun m => decide (m ≠ sys))).reverse, m ≠ sys := by
          intro m hm
          have hmem := List.mem_reverse.mp hm
          have := List.of_mem_filter hmem
          simpa using this
        obtain ⟨rest', hshape, hrest⟩ :=
          addRecent_shape cm.max_tokens sys
            (messages.filter (fun m => decide (m ≠ sys))).reverse
            [] (count_tokens sys.content) hrem (by simp)
        have hsum := addRecent_sum_le cm.max_tokens
          (messages.filter (fun m => decide (m ≠ sys))).reverse
          [sys] (count_tokens sys.content) (by simp [sumTokens]) hsys
        rw [hshape] at hsum
        rw [hshape]
        have hfilter : ((sys :: rest').filter (fun m => decide (m ≠ sys))) = rest' := by
          rw [List.filter_cons]
          have h1 : (decide (sys ≠ sys)) = false := by simp
          rw [h1]
          simp only [Bool.false_eq_true, if_false]
          exact List.filter_eq_self.mpr (fun a ha => by simpa using hrest a ha)
        rw [hfilter, sumTokens_cons, sumTokens_reverse]
        rw [sumTokens_cons] at hsum
        exact hsum

/-- C2 witness: the amended bound applied at a concrete history of one system
turn and one user turn, budget 1. -/
theorem truncate_context_per_turn_budget_witness :
    sumTokens (truncate_context ⟨1⟩
        [⟨"system", "ssss"⟩, ⟨"user", "aaaaaaaaaaaa"⟩] []) ≤ 1 :=
  truncate_context_per_turn_budget ⟨1⟩
    [⟨"system", "ssss"⟩, ⟨"user", "aaaaaaaaaaaa"⟩] []
    (show count_tokens (String.mk ['s', 's', 's', 's']) ≤ 1 by decide)

/-- C6 counterexample. `truncate_context` is not idempotent: with budget 1 and
three zero-token turns whose joint total (counted with newlines) exceeds the
budget, the sliding-window pass keeps all three turns but permutes them, and a
second application permutes them again, yielding a different list. -/
theorem truncate_context_not_idempotent :
    truncate_context ⟨1⟩
        (truncate_context ⟨1⟩ [⟨"user", "aaa"⟩, ⟨"user", "bbb"⟩, ⟨"user", "ccc"⟩] []) []
      ≠ truncate_context ⟨1⟩ [⟨"user", "aaa"⟩, ⟨"user", "bbb"⟩, ⟨"user", "ccc"⟩] [] := by
  decide

/-- C6 amended. `truncate_context` is idempotent on every input whose output
fits the budget under the code's own total estimate (in particular whenever
the input already fits and the call is a no-op): reapplying it to such an
output returns the output unchanged. -/
theorem truncate_context_idempotent_on_fitting_output (cm : ContextManager)
    (messages : List Message)
    (h : count_tokens (totalContent (truncate_context cm messages []) []) ≤ cm.max_tokens) :
    truncate_context cm (truncate_context cm messages []) []
      = truncate_context cm messages [] :=
  truncate_context_noop cm (truncate_context cm messages []) [] h

/-- C6 witness: idempotence at a concrete two-turn history that fits a budget
of 4096. -/
theorem truncate_context_idempotent_on_fitting_output_witness :
    truncate_context ⟨4096⟩
        (truncate_context ⟨4096⟩ [⟨"user", "hello"⟩, ⟨"assistant", "hi"⟩] []) []
      = truncate_context ⟨4096⟩ [⟨"user", "hello"⟩, ⟨"assistant", "hi"⟩] [] :=
  truncate_context_idempotent_on_fitting_output ⟨4096⟩
    [⟨"user", "hello"⟩, ⟨"assistant", "hi"⟩] (by decide)

/-- C9. Searching an empty vector index returns the empty result list, for
every query vector and every `k`: `USearchIndex.search` short-circuits on
`len(self.index) == 0`. -/
theorem search_empty_index_returns_empty (md5hex : String → String)
    (ann : List (Nat × List ℚ) → List ℚ → Nat → List (Nat × ℚ))
    (idx : USearchIndexState) (query_embedding : List ℚ) (k : Nat)
    (h : idx.entries = []) :
    usearch_search md5hex ann idx query_embedding k = [] := by
  unfold usearch_search
  rw [h]
  rfl

/-- C9 witness: the empty-index search evaluated at a concrete query vector
and `k = 5`. -/
theorem search_empty_index_returns_empty_witness :
    usearch_search zeroDigest emptyAnn ⟨[], []⟩ [0, 1] 5 = [] :=
  search_empty_index_returns_empty zeroDigest emptyAnn ⟨[], []⟩ [0, 1] 5 rfl

/-- Flushing the buffer preserves the bound-or-small-seed property when the
buffer itself satisfies it. -/
theorem emitChunk_bound (chunk_size : Nat) (document_id current : String)
    (sents : List String) (chunks : List DocumentChunk)
    (hchunks : ∀ c ∈ chunks, c.content.length ≤ chunk_size ∨
      ∃ n, n ≤ 3 ∧ c.meta = ChunkMeta.text n)
    (hinv : current.length ≤ chunk_size ∨ sents.length ≤ 3) :
    ∀ c ∈ emitChunk document_id current sents chunks,
      c.content.length ≤ chunk_size ∨ ∃ n, n ≤ 3 ∧ c.meta = ChunkMeta.text n := by
  intro c hc
  unfold emitChunk at hc
  split at hc
  · rcases List.mem_append.mp hc with h | h
    · exact hchunks c h
    · have hceq : c = ⟨document_id ++ "_chunk_" ++ toString chunks.length,
          pyStrip current, document_id, ChunkMeta.text sents.length⟩ := by
        simpa using h
      subst hceq
      rcases hinv with hlen | hsmall
      · exact Or.inl (le_trans (pyStrip_length_le current) hlen)
      · exact Or.inr ⟨sents.length, hsmall, rfl⟩
  · exact hchunks c hc

/-- The chunk-size invariant maintained by the sentence-accumulation loop:
chunks already emitted satisfy the bound-or-small-seed property, and the
running buffer either fits the bound or holds at most three sentences (an
overlap seed of at most two carried-over sentences plus one new one). -/
theorem chunkTextLoop_size_bound (chunk_size overlap : Nat) (document_id : String)
    (sentences : List String) :
    ∀ (current : String) (sents : List String) (chunks : List DocumentChunk),
      (∀ c ∈ chunks, c.content.length ≤ chunk_size ∨
        ∃ n, n ≤ 3 ∧ c.meta = ChunkMeta.text n) →
      (current.length ≤ chunk_size ∨ sents.length ≤ 3) →
      ∀ c ∈ chunkTextLoop chunk_size overlap document_id sentences current sents chunks,
        c.content.length ≤ chunk_size ∨ ∃ n, n ≤ 3 ∧ c.meta = ChunkMeta.text n := by
  induction sentences with
  | nil =>
      intro current sents chunks hchunks hinv c hc
      exact emitChunk_bound chunk_size document_id current sents chunks hchunks hinv c hc
  | cons sentence rest ih =>
      intro current sents chunks hchunks hinv c hc
      unfold chunkTextLoop at hc
      split at hc
      · next hfit =>
          exact ih _ _ _ hchunks (Or.inl hfit) c hc
      · next hnofit =>
          have hchunks' := emitChunk_bound chunk_size document_id current sents chunks
            hchunks hinv
          split at hc
          · refine ih _ _ _ hchunks' (Or.inr ?_) c hc
            have := overlapTail_length_le sents
            simp only [List.length_append, List.length_cons, List.length_nil]
            omega
          · exact ih _ _ _ hchunks' (Or.inr (by simp)) c hc

/-- C3 counterexample. The claim allows a Segment to exceed the configured
maximum chunk size only when it is a single indivisible sentence. With
maximum 10, overlap 2 and three six-character sentences, the second emitted
chunk is the overlap seed "aaaaaa bbbbbb": thirteen characters, two
sentences - oversized without being a single sentence. -/
theorem chunk_text_oversized_two_sentence_chunk :
    (chunk_text 10 2 ["aaaaaa", "bbbbbb", "cccccc"] "d")[1]?
      = some ⟨"d_chunk_1", "aaaaaa bbbbbb", "d", ChunkMeta.text 2⟩ ∧
    ¬ ("aaaaaa bbbbbb" : String).length ≤ 10 ∧ (2 : Nat) ≠ 1 := by
  decide

/-- C3 amended. Every Segment produced by the prose chunker has content length
at most the configured maximum chunk size, except a Segment kept whole as an
indivisible seed of at most three sentences: a single long sentence, or the
up-to-two overlap sentences carried from the previous Segment plus one new
sentence. -/
theorem chunk_text_size_bound (chunk_size overlap : Nat) (sentences : List String)
    (document_id : String) (c : DocumentChunk)
    (hc : c ∈ chunk_text chunk_size overlap sentences document_id) :
    c.content.length ≤ chunk_size ∨ ∃ n, n ≤ 3 ∧ c.meta = ChunkMeta.text n :=
  chunkTextLoop_size_bound chunk_size overlap document_id sentences "" [] []
    (by simp) (Or.inl (by simp)) c hc

/-- C3 witness: the bound applied to the one chunk produced from a single
short sentence with maximum 10 and overlap 2. -/
theorem chunk_text_size_bound_witness :
    (⟨"d_chunk_0", "aaaa", "d", ChunkMeta.text 1⟩ : DocumentChunk).content.length ≤ 10 ∨
    ∃ n, n ≤ 3 ∧ (⟨"d_chunk_0", "aaaa", "d", ChunkMeta.text 1⟩ : DocumentChunk).meta
      = ChunkMeta.text n :=
  chunk_text_size_bound 10 2 ["aaaa"] "d"
    ⟨"d_chunk_0", "aaaa", "d", ChunkMeta.text 1⟩ (by decide)

theorem hexVal_le_15 (c : Char) : hexVal c ≤ 15 := by
  unfold hexVal
  split <;> omega

/-- C7. The fallback encoder is deterministic and order-preserving: it is a
pure function of its input (so two calls on the same string give bit-identical
vectors), and on a batch it returns exactly one vector per input string, the
vector at position `i` being the encoding of the input at position `i`. -/
theorem fallback_encode_deterministic_one_per_input (md5hex : String → String)
    (texts : List String) :
    (fallback_encode md5hex texts).length = texts.length ∧
    ∀ (i : Nat) (t : String), texts[i]? = some t →
      (fallback_encode md5hex texts)[i]? = some (fallbackEncodeOne md5hex t) := by
  constructor
  · simp [fallback_encode]
  · intro i t h
    simp [fallback_encode, List.getElem?_map, h]

/-- C7 witness: a two-string batch under a concrete digest; the first output
is the encoding of the first input. -/
theorem fallback_encode_deterministic_one_per_input_witness :
    (fallback_encode zeroDigest ["alpha", "beta"]).length = 2 ∧
    (fallback_encode zeroDigest ["alpha", "beta"])[0]?
      = some (fallbackEncodeOne zeroDigest "alpha") :=
  ⟨(fallback_encode_deterministic_one_per_input zeroDigest ["alpha", "beta"]).1,
   (fallback_encode_deterministic_one_per_input zeroDigest ["alpha", "beta"]).2 0 "alpha" rfl⟩

set_option maxRecDepth 8192 in
/-- C8 counterexample. The claim says the digest's hex digits are expanded
cyclically so that every position of the 384-dimension vector is filled with
a digest-derived digit. In the code the write loop runs only up to
`min(len(text_hash), EMBEDDING_DIM)` = 32, so position 32 holds the initial
zero; under an all-`'f'` digest the claimed cyclic value at position 32 is
`int('f',16)/15 = 1`, not 0. -/
theorem fallback_encode_not_cyclic_fill :
    (fallbackEncodeOne allFDigest "x")[32]? = some 0 ∧
    ¬ ((hexVal ((allFDigest "x").data.getD (32 % 32) '0') : ℚ) / 15 = 0) := by
  constructor
  · decide
  · have h : (allFDigest "x").data.getD (32 % 32) '0' = 'f' := by decide
    rw [h]
    norm_num [show hexVal 'f' = 15 from rfl]

/-- C8 amended. For a 32-hex-digit digest, the fallback encoder fills exactly
the first 32 positions of the 384-dimension vector, position `i` holding the
digest digit at index `i` normalized by `/ 15` into `[0, 1]`; the remaining
positions keep their initial value 0 rather than being filled cyclically. -/
theorem fallback_encode_prefix_fill_normalized (md5hex : String → String) (t : String)
    (h32 : (md5hex t).length = 32) :
    (fallbackEncodeOne md5hex t).length = EMBEDDING_DIM ∧
    (∀ i, i < 32 →
      (fallbackEncodeOne md5hex t)[i]?
        = some ((hexVal ((md5hex t).data.getD i '0') : ℚ) / 15) ∧
      0 ≤ ((hexVal ((md5hex t).data.getD i '0') : ℚ) / 15) ∧
      ((hexVal ((md5hex t).data.getD i '0') : ℚ) / 15) ≤ 1) ∧
    (∀ i, 32 ≤ i → i < EMBEDDING_DIM → (fallbackEncodeOne md5hex t)[i]? = some 0) := by
  have hdata : (md5hex t).data.length = 32 := h32
  refine ⟨by simp [fallbackEncodeOne], ?_, ?_⟩
  · intro i hi
    have hi384 : i < 384 := by omega
    refine ⟨?_, ?_, ?_⟩
    · unfold fallbackEncodeOne
      rw [List.getElem?_map, List.getElem?_range (show i < EMBEDDING_DIM from hi384)]
      simp only [Option.map_some', hdata]
      rw [if_pos (show i < min 32 EMBEDDING_DIM by simp only [EMBEDDING_DIM]; omega)]
      rw [Nat.mod_eq_of_lt hi]
    · positivity
    · rw [div_le_one (by norm_num : (0:ℚ) < 15)]
      exact_mod_cast hexVal_le_15 _
  · intro i hge hlt
    unfold fallbackEncodeOne
    rw [List.getElem?_map, List.getElem?_range hlt]
    simp only [Option.map_some', hdata]
    rw [if_neg (show ¬ i < min 32 EMBEDDING_DIM by simp only [EMBEDDING_DIM]; omega)]

/-- C8 witness: the amended description applied to a concrete 32-digit digest
at positions 0 and 32. -/
theorem fallback_encode_prefix_fill_normalized_witness :
    (fallbackEncodeOne allFDigest "x").length = EMBEDDING_DIM ∧
    (fallbackEncodeOne allFDigest "x")[0]?
      = some ((hexVal ((allFDigest "x").data.getD 0 '0') : ℚ) / 15) ∧
    (fallbackEncodeOne allFDigest "x")[32]? = some 0 :=
  ⟨(fallback_encode_prefix_fill_normalized allFDigest "x" (by decide)).1,
   ((fallback_encode_prefix_fill_normalized allFDigest "x" (by decide)).2.1 0
     (by decide)).1,
   (fallback_encode_prefix_fill_normalized allFDigest "x" (by decide)).2.2 32
     (by decide) (by decide)⟩

/-- C4 counterexample. The claim says ingesting empty content is surfaced as
a validation error and mutates neither the in-memory document store nor the
persisted state. `ingest_document` performs no validation: on empty content
with id `"doc1"` it returns normally and stores the empty document in the
in-memory store, which therefore is mutated. -/
theorem ingest_empty_mutates_document_store :
    (ingest_document zeroDigest emptyTok emptyEnc freshEngine "" (some "doc1")).1 = "doc1" ∧
    (ingest_document zeroDigest emptyTok emptyEnc freshEngine "" (some "doc1")).2.documents
      = [("doc1", "")] ∧
    ([("doc1", "")] : List (String × String)) ≠ freshEngine.documents := by
  refine ⟨by decide, by decide, by decide⟩

/-- C4 amended. Ingesting empty content is not rejected: the call succeeds,
returns the given or content-hash-derived id, and records the empty document
in the in-memory store; it produces zero Segments, so the live vector index
and the persisted index and sidecar are untouched. The hypothesis is the
behaviour of the external sentence tokenizer on the empty string. -/
theorem ingest_empty_no_validation_no_persist (md5hex : String → String)
    (sentTok : String → List String) (enc : List String → List (List ℚ))
    (st : EngineState) (doc_id? : Option String) (htok : sentTok "" = []) :
    (ingest_document md5hex sentTok enc st "" doc_id?).2.documents
      = dictInsert st.documents (ingest_document md5hex sentTok enc st "" doc_id?).1 "" ∧
    (ingest_document md5hex sentTok enc st "" doc_id?).2.index = st.index ∧
    (ingest_document md5hex sentTok enc st "" doc_id?).2.persisted = st.persisted := by
  have hic : is_code "" = false := by decide
  rcases doc_id? with _ | d
  · refine ⟨?_, ?_, ?_⟩ <;>
      simp [ingest_document, hic, htok, chunk_text, chunkTextLoop, emitChunk]
  · refine ⟨?_, ?_, ?_⟩ <;>
      simp [ingest_document, hic, htok, chunk_text, chunkTextLoop, emitChunk]

/-- C4 witness: the amended statement at empty content, explicit id, fresh
engine state and the concrete external collaborators. -/
theorem ingest_empty_no_validation_no_persist_witness :
    (ingest_document zeroDigest emptyTok emptyEnc freshEngine "" (some "doc1")).2.documents
      = dictInsert freshEngine.documents
          (ingest_document zeroDigest emptyTok emptyEnc freshEngine "" (some "doc1")).1 "" ∧
    (ingest_document zeroDigest emptyTok emptyEnc freshEngine "" (some "doc1")).2.index
      = freshEngine.index ∧
    (ingest_document zeroDigest emptyTok emptyEnc freshEngine "" (some "doc1")).2.persisted
      = freshEngine.persisted :=
  ingest_empty_no_validation_no_persist zeroDigest emptyTok emptyEnc freshEngine
    (some "doc1") rfl

/-- C5 counterexample. The claim expects `length == 22` for the document
`"Python is a language."`; that string has 21 characters, and the summary
reports 21 under the concrete external collaborators. -/
theorem doc1_summary_length_not_22 :
    (get_document_summary
        (ingest_document zeroDigest doc1Tok oneVecEnc freshEngine
          "Python is a language." (some "doc1")).2 "doc1").map
      (fun sm => (sm.chunk_count, sm.length)) = some (1, 21) ∧ (21 : Nat) ≠ 22 := by
  exact ⟨by decide, by decide⟩

/-- C5 amended. After ingesting `"Python is a language."` with explicit id
`"doc1"` into a fresh engine, `get_document_summary "doc1"` reports
`chunk_count = 1` and `length = 21` (not 22). The hypotheses record the
external collaborators' behaviour: the sentence tokenizer returns the single
sentence, and the encoder returns one vector for the one-chunk batch. -/
theorem doc1_summary_chunk_count_and_length (md5hex : String → String)
    (sentTok : String → List String) (enc : List String → List (List ℚ))
    (htok : sentTok "Python is a language." = ["Python is a language."])
    (henc : (enc ["Python is a language."]).length = 1) :
    ∃ sm, get_document_summary
        (ingest_document md5hex sentTok enc freshEngine
          "Python is a language." (some "doc1")).2 "doc1"
      = some sm ∧ sm.chunk_count = 1 ∧ sm.length = 21 := by
  have hic : is_code "Python is a language." = false := by decide
  have hchunk : chunk_text CHUNK_SIZE CHUNK_OVERLAP ["Python is a language."] "doc1"
      = [⟨"doc1_chunk_0", "Python is a language.", "doc1", ChunkMeta.text 1⟩] := by decide
  obtain ⟨v, hv⟩ := List.length_eq_one.mp henc
  refine ⟨⟨"doc1", 21, 1, pyTake 100 "Python is a language." ++ "..."⟩, ?_, rfl, rfl⟩
  simp only [ingest_document, hic, if_false, Bool.false_eq_true, htok, hchunk,
    List.map_cons, List.map_nil, hv, List.zip_cons_cons, List.zip_nil_right,
    List.foldl_cons, List.foldl_nil]
  simp [get_document_summary, add_chunk, dictInsert, dictLookup, freshEngine,
    pyTake]
  decide

/-- C5 witness: the amended statement under the concrete external
collaborators. -/
theorem doc1_summary_chunk_count_and_length_witness :
    ∃ sm, get_document_summary
        (ingest_document zeroDigest doc1Tok oneVecEnc freshEngine
          "Python is a language." (some "doc1")).2 "doc1"
      = some sm ∧ sm.chunk_count = 1 ∧ sm.length = 21 :=
  doc1_summary_chunk_count_and_length zeroDigest doc1Tok oneVecEnc rfl rfl

theorem findChunkIdForKey_isSome_lookup (md5hex : String → String)
    (dcs : List (String × DocumentChunk)) (key : Nat) (cid : String)
    (h : findChunkIdForKey md5hex dcs key = some cid) :
    (dictLookup dcs cid).isSome := by
  induction dcs with
  | nil => simp [findChunkIdForKey] at h
  | cons p rest ih =>
      obtain ⟨c, ch⟩ := p
      unfold findChunkIdForKey at h
      split at h
      · injection h with h'
        subst h'
        simp [dictLookup]
      · have hrest := ih h
        unfold dictLookup
        split
        · simp
        · exact hrest

theorem usearch_search_mem_lookup (md5hex : String → String)
    (ann : List (Nat × List ℚ) → List ℚ → Nat → List (Nat × ℚ))
    (idx : USearchIndexState) (q : List ℚ) (k : Nat) :
    ∀ p ∈ usearch_search md5hex ann idx q k,
      (dictLookup idx.document_chunks p.1).isSome := by
  intro p hp
  unfold usearch_search at hp
  split at hp
  · simp at hp
  · obtain ⟨kd, _, hf⟩ := List.mem_filterMap.mp hp
    rcases hfind : findChunkIdForKey md5hex idx.document_chunks kd.1 with _ | cid
    · rw [hfind] at hf
      simp at hf
    · rw [hfind] at hf
      dsimp only at hf
      rcases em (cid = "") with hcid | hcid
      · rw [if_neg (not_not_intro hcid)] at hf
        simp at hf
      · rw [if_pos hcid] at hf
        injection hf with h'
        subst h'
        exact findChunkIdForKey_isSome_lookup md5hex idx.document_chunks kd.1 cid hfind

theorem length_filterMap_of_all_isSome {α β : Type} (f : α → Option β) (l : List α)
    (h : ∀ a ∈ l, (f a).isSome) : (l.filterMap f).length = l.length := by
  induction l with
  | nil => simp
  | cons a t ih =>
      obtain ⟨b, hb⟩ := Option.isSome_iff_exists.mp (h a (List.mem_cons_self _ _))
      rw [List.filterMap_cons, hb]
      simp only [List.length_cons]
      rw [ih (fun x hx => h x (List.mem_cons_of_mem _ hx))]

/-- C10. Every `(chunk_id, similarity)` pair returned by `USearchIndex.search`
carries a chunk id present in the stored chunk metadata, and consequently
`RAGEngine.retrieve` hydrates exactly one `RetrievedResult` per pair the
search returns - never silently fewer. The hypothesis provides the query
vector the encoder returns for the query. -/
theorem retrieve_hydrates_all_search_results (md5hex : String → String)
    (ann : List (Nat × List ℚ) → List ℚ → Nat → List (Nat × ℚ))
    (enc : List String → List (List ℚ)) (st : EngineState) (query : String) (k : Nat)
    (qe : List ℚ) (vrest : List (List ℚ)) (henc : enc [query] = qe :: vrest) :
    (∀ p ∈ usearch_search md5hex ann st.index qe k,
      (dictLookup st.index.document_chunks p.1).isSome) ∧
    ∃ rs, retrieve md5hex ann enc st query k = some rs ∧
      rs.length = (usearch_search md5hex ann st.index qe k).length := by
  refine ⟨usearch_search_mem_lookup md5hex ann st.index qe k, ?_⟩
  unfold retrieve
  rw [henc]
  refine ⟨_, rfl, ?_⟩
  rw [List.length_mergeSort]
  apply length_filterMap_of_all_isSome
  intro p hp
  obtain ⟨ch, hch⟩ := Option.isSome_iff_exists.mp
    (usearch_search_mem_lookup md5hex ann st.index qe k p hp)
  simp [hch]

/-- C10 witness: the hydration totality at a fresh (empty) engine and a
concrete encoder, where search returns no pairs and retrieve returns an empty
list of the same length. -/
theorem retrieve_hydrates_all_search_results_witness :
    (∀ p ∈ usearch_search zeroDigest emptyAnn freshEngine.index [0] 5,
      (dictLookup freshEngine.index.document_chunks p.1).isSome) ∧
    ∃ rs, retrieve zeroDigest emptyAnn oneVecEnc freshEngine "q" 5 = some rs ∧
      rs.length = (usearch_search zeroDigest emptyAnn freshEngine.index [0] 5).length :=
  retrieve_hydrates_all_search_results zeroDigest emptyAnn oneVecEnc freshEngine
    "q" 5 [0] [] rfl
